import Mathlib

/-
Verification of the transportation-problem solver in `transport_ro.py`.

The program reads a cost table (`couts`), a supply table (`offres`) and a
demand table (`demandes`) from GUI widgets, builds the linear program

    minimise    sum couts[i][j] * x[i][j]
    subject to  sum over j of x[i][j] <= offres[i]    (one row per source i)
                sum over i of x[i][j] >= demandes[j]  (one row per destination j)
                x[i][j] >= 0                          (default lower bound of addVar)

and hands it to an external LP solver; on status OPTIMAL it writes the
allocation into the result table and the objective value into the result
label, otherwise it shows a message box.

Modelling choices: real arithmetic is modelled by ℚ; the external LP
solver is modelled by its contract — it reports an optimal point exactly
when one exists.  Cell texts are modelled as already-parsed numbers, a
missing item or an item with empty text being `none`.
-/

namespace TransportRO

/-- One cell of `_read_table`, mirroring
`float(item.text()) if item and item.text() else 0`:
an out-of-range access or an item whose stored value is `none`
(missing item / empty text) stands for the `else` branch. -/
def cellItem (t : List (List (Option ℚ))) (i j : ℕ) : Option ℚ :=
  ((t.get? i).bind fun r => r.get? j).join

/-- The numeric value `_read_table` produces for one cell. -/
def readCell (t : List (List (Option ℚ))) (i j : ℕ) : ℚ :=
  (cellItem t i j).getD 0

/-- `_read_table(table, rows, cols)`: the `rows × cols` matrix of cell values. -/
def read_table (t : List (List (Option ℚ))) (rows cols : ℕ) : List (List ℚ) :=
  (List.range rows).map fun i => (List.range cols).map fun j => readCell t i j

/-- Entry `(i, j)` of a matrix stored as a list of rows, `0` out of range. -/
def matOf (A : List (List ℚ)) (i j : ℕ) : ℚ := (A.getD i []).getD j 0

/-- Entry `i` of a vector stored as a list, `0` out of range. -/
def vecOf (v : List ℚ) (i : ℕ) : ℚ := v.getD i 0

/-- Row sum of an allocation: the shipped amount leaving source `i`. -/
def rowSum {m n : ℕ} (x : Fin m → Fin n → ℚ) (i : Fin m) : ℚ := ∑ j, x i j

/-- Column sum of an allocation: the shipped amount arriving at destination `j`. -/
def colSum {m n : ℕ} (x : Fin m → Fin n → ℚ) (j : Fin n) : ℚ := ∑ i, x i j

/-- The feasible region of the LP built in `solve_transport`
(lines 123–131): variables bounded below by `0` (default bound of
`addVar`), row sums at most the supplies, column sums at least the
demands. -/
def Feasible {m n : ℕ} (s : Fin m → ℚ) (d : Fin n → ℚ)
    (x : Fin m → Fin n → ℚ) : Prop :=
  (∀ i j, 0 ≤ x i j) ∧ (∀ i, rowSum x i ≤ s i) ∧ (∀ j, d j ≤ colSum x j)

/-- The objective posted in `setObjective`:
`quicksum(couts[i][j] * x[i,j] ...)`. -/
def totalCost {m n : ℕ} (c : Fin m → Fin n → ℚ) (x : Fin m → Fin n → ℚ) : ℚ :=
  ∑ i, ∑ j, c i j * x i j

/-- A point the solver may return with status OPTIMAL: feasible and of
minimal objective value. -/
def IsOptimal {m n : ℕ} (c : Fin m → Fin n → ℚ) (s : Fin m → ℚ)
    (d : Fin n → ℚ) (x : Fin m → Fin n → ℚ) : Prop :=
  Feasible s d x ∧ ∀ y, Feasible s d y → totalCost c x ≤ totalCost c y

/-- A balanced instance: total supply equals total demand. -/
def BalancedInstance {m n : ℕ} (s : Fin m → ℚ) (d : Fin n → ℚ) : Prop :=
  ∑ i, s i = ∑ j, d j

/-- Follows the spec's words (claim C2): a shipment plan that ships
exactly the demanded quantities — column sums equal to the demands —
within the supply limits. -/
def ExactFeasible {m n : ℕ} (s : Fin m → ℚ) (d : Fin n → ℚ)
    (x : Fin m → Fin n → ℚ) : Prop :=
  (∀ i j, 0 ≤ x i j) ∧ (∀ i, rowSum x i ≤ s i) ∧ (∀ j, colSum x j = d j)

/-- Follows the spec's words (claim C2): a minimum-cost plan among those
shipping exactly the demanded quantities. -/
def ExactOptimal {m n : ℕ} (c : Fin m → Fin n → ℚ) (s : Fin m → ℚ)
    (d : Fin n → ℚ) (z : Fin m → Fin n → ℚ) : Prop :=
  ExactFeasible s d z ∧ ∀ y, ExactFeasible s d y → totalCost c z ≤ totalCost c y

lemma exactFeasible_feasible {m n : ℕ} {s : Fin m → ℚ} {d : Fin n → ℚ}
    {x : Fin m → Fin n → ℚ} (h : ExactFeasible s d x) : Feasible s d x :=
  ⟨h.1, h.2.1, fun j => le_of_eq (h.2.2 j).symm⟩

/- Helper lemmas about 1 × 1 instances, used to discharge hypotheses of
the claim theorems at concrete inputs. -/

lemma totalCost_one (c y : Fin 1 → Fin 1 → ℚ) : totalCost c y = c 0 0 * y 0 0 := by
  simp [totalCost, Fin.sum_univ_one]

lemma feasible_one {s₀ d₀ v : ℚ} (h0 : 0 ≤ v) (hs : v ≤ s₀) (hd : d₀ ≤ v) :
    Feasible (fun _ : Fin 1 => s₀) (fun _ : Fin 1 => d₀) (fun _ _ => v) := by
  refine ⟨fun _ _ => h0, fun i => ?_, fun j => ?_⟩ <;>
    simp [rowSum, colSum, Fin.sum_univ_one, hs, hd]

lemma feasible_one_elim {s₀ d₀ : ℚ} {y : Fin 1 → Fin 1 → ℚ}
    (h : Feasible (fun _ : Fin 1 => s₀) (fun _ : Fin 1 => d₀) y) :
    0 ≤ y 0 0 ∧ y 0 0 ≤ s₀ ∧ d₀ ≤ y 0 0 := by
  obtain ⟨h0, hr, hc⟩ := h
  refine ⟨h0 0 0, ?_, ?_⟩
  · have := hr 0
    simpa [rowSum, Fin.sum_univ_one] using this
  · have := hc 0
    simpa [colSum, Fin.sum_univ_one] using this

lemma optimal_one_nonneg {k s₀ d₀ : ℚ} (hk : 0 ≤ k) (h0 : 0 ≤ d₀) (hds : d₀ ≤ s₀) :
    IsOptimal (fun _ _ => k) (fun _ : Fin 1 => s₀) (fun _ : Fin 1 => d₀)
      (fun _ _ => d₀) := by
  refine ⟨feasible_one h0 hds le_rfl, fun y hy => ?_⟩
  obtain ⟨hy0, hys, hyd⟩ := feasible_one_elim hy
  rw [totalCost_one, totalCost_one]
  exact mul_le_mul_of_nonneg_left hyd hk

lemma optimal_one_nonpos {k s₀ d₀ : ℚ} (hk : k ≤ 0) (h0 : 0 ≤ d₀) (hds : d₀ ≤ s₀) :
    IsOptimal (fun _ _ => k) (fun _ : Fin 1 => s₀) (fun _ : Fin 1 => d₀)
      (fun _ _ => s₀) := by
  refine ⟨feasible_one (h0.trans hds) le_rfl hds, fun y hy => ?_⟩
  obtain ⟨hy0, hys, hyd⟩ := feasible_one_elim hy
  rw [totalCost_one, totalCost_one]
  exact mul_le_mul_of_nonpos_left hys hk

lemma exactOptimal_one {k s₀ d₀ : ℚ} (h0 : 0 ≤ d₀) (hds : d₀ ≤ s₀) :
    ExactOptimal (fun _ _ => k) (fun _ : Fin 1 => s₀) (fun _ : Fin 1 => d₀)
      (fun _ _ => d₀) := by
  constructor
  · refine ⟨fun _ _ => h0, fun i => ?_, fun j => ?_⟩ <;>
      simp [rowSum, colSum, Fin.sum_univ_one, hds]
  · intro y hy
    have hy00 : y 0 0 = d₀ := by
      have := hy.2.2 0
      simpa [colSum, Fin.sum_univ_one] using this
    rw [totalCost_one, totalCost_one, hy00]

/-- Claim C1: on a balanced instance, any allocation the solver can
return satisfies the flow-conservation equations — every row sum equals
the supply and every column sum equals the demand — even though the code
only posts `rowSum ≤ supply` and `colSum ≥ demand` as constraints. -/
theorem C1_balanced_flow_conservation {m n : ℕ} (c : Fin m → Fin n → ℚ)
    (s : Fin m → ℚ) (d : Fin n → ℚ) (x : Fin m → Fin n → ℚ)
    (hbal : BalancedInstance s d) (hopt : IsOptimal c s d x) :
    (∀ i, rowSum x i = s i) ∧ (∀ j, colSum x j = d j) := by
  obtain ⟨⟨-, hrow, hcol⟩, -⟩ := hopt
  have hbal' : ∑ i, s i = ∑ j, d j := hbal
  have hswap : ∑ j, colSum x j = ∑ i, rowSum x i := by
    simp only [rowSum, colSum]
    exact Finset.sum_comm
  have h1 : ∑ i, rowSum x i ≤ ∑ i, s i := Finset.sum_le_sum fun i _ => hrow i
  have h2 : ∑ j, d j ≤ ∑ j, colSum x j := Finset.sum_le_sum fun j _ => hcol j
  have hrt : ∑ i, rowSum x i = ∑ i, s i := by
    refine le_antisymm h1 ?_
    calc ∑ i, s i = ∑ j, d j := hbal'
      _ ≤ ∑ j, colSum x j := h2
      _ = ∑ i, rowSum x i := hswap
  have hct : ∑ j, d j = ∑ j, colSum x j := by
    refine le_antisymm h2 ?_
    calc ∑ j, colSum x j = ∑ i, rowSum x i := hswap
      _ ≤ ∑ i, s i := h1
      _ = ∑ j, d j := hbal'
  constructor
  · intro i
    exact (Finset.sum_eq_sum_iff_of_le fun i _ => hrow i).mp hrt i (Finset.mem_univ i)
  · intro j
    exact ((Finset.sum_eq_sum_iff_of_le fun j _ => hcol j).mp hct j (Finset.mem_univ j)).symm

/-- Witness for C1 at the concrete balanced instance
`cost [[2]], supply [5], demand [5]` with optimal allocation `[[5]]`. -/
theorem C1_witness :
    BalancedInstance (fun _ : Fin 1 => (5 : ℚ)) (fun _ : Fin 1 => (5 : ℚ)) ∧
    ((∀ i, rowSum (fun _ _ => (5 : ℚ) : Fin 1 → Fin 1 → ℚ) i = (5 : ℚ)) ∧
     (∀ j, colSum (fun _ _ => (5 : ℚ) : Fin 1 → Fin 1 → ℚ) j = (5 : ℚ))) :=
  ⟨rfl, C1_balanced_flow_conservation (fun _ _ => (2 : ℚ)) (fun _ => 5) (fun _ => 5)
    (fun _ _ => 5) rfl (optimal_one_nonneg (by norm_num) (by norm_num) le_rfl)⟩

/- Column scaling: shrink a feasible point of the code's LP into a plan
shipping exactly the demands, without increasing the cost when all costs
are nonnegative.  Used for the amended claim C2. -/

/-- Scale every column of `x` down so that its sum becomes exactly the
demand of that column. -/
def scaleCols {m n : ℕ} (d : Fin n → ℚ) (x : Fin m → Fin n → ℚ) :
    Fin m → Fin n → ℚ :=
  fun i j => if colSum x j = 0 then 0 else x i j * (d j / colSum x j)

lemma colSum_nonneg {m n : ℕ} {x : Fin m → Fin n → ℚ}
    (hx0 : ∀ i j, 0 ≤ x i j) (j : Fin n) : 0 ≤ colSum x j :=
  Finset.sum_nonneg fun i _ => hx0 i j

lemma scaleCols_le {m n : ℕ} {s : Fin m → ℚ} {d : Fin n → ℚ}
    {x : Fin m → Fin n → ℚ} (hd : ∀ j, 0 ≤ d j) (hf : Feasible s d x) :
    ∀ i j, scaleCols d x i j ≤ x i j := by
  intro i j
  obtain ⟨hx0, hxr, hxc⟩ := hf
  unfold scaleCols
  by_cases h : colSum x j = 0
  · simpa [h] using hx0 i j
  · simp only [h, if_false]
    have hpos : 0 < colSum x j := lt_of_le_of_ne (colSum_nonneg hx0 j) (Ne.symm h)
    have ht1 : d j / colSum x j ≤ 1 := (div_le_one hpos).mpr (hxc j)
    calc x i j * (d j / colSum x j) ≤ x i j * 1 :=
          mul_le_mul_of_nonneg_left ht1 (hx0 i j)
      _ = x i j := mul_one _

lemma scaleCols_nonneg {m n : ℕ} {d : Fin n → ℚ} {x : Fin m → Fin n → ℚ}
    (hd : ∀ j, 0 ≤ d j) (hx0 : ∀ i j, 0 ≤ x i j) :
    ∀ i j, 0 ≤ scaleCols d x i j := by
  intro i j
  unfold scaleCols
  by_cases h : colSum x j = 0
  · simp [h]
  · simp only [h, if_false]
    exact mul_nonneg (hx0 i j) (div_nonneg (hd j) (colSum_nonneg hx0 j))

lemma scaleCols_colSum {m n : ℕ} {s : Fin m → ℚ} {d : Fin n → ℚ}
    {x : Fin m → Fin n → ℚ} (hd : ∀ j, 0 ≤ d j) (hf : Feasible s d x) :
    ∀ j, colSum (scaleCols d x) j = d j := by
  intro j
  obtain ⟨hx0, hxr, hxc⟩ := hf
  by_cases h : colSum x j = 0
  · have hdj : d j = 0 := le_antisymm (h ▸ hxc j) (hd j)
    have hz : colSum (scaleCols d x) j = 0 := by
      unfold colSum scaleCols
      simp [h]
    rw [hz, hdj]
  · have hs : colSum (scaleCols d x) j = colSum x j * (d j / colSum x j) := by
      unfold colSum scaleCols
      simp only [h, if_false]
      rw [← Finset.sum_mul]
      rfl
    rw [hs, mul_comm, div_mul_cancel₀ _ h]

lemma scaleCols_exactFeasible {m n : ℕ} {s : Fin m → ℚ} {d : Fin n → ℚ}
    {x : Fin m → Fin n → ℚ} (hd : ∀ j, 0 ≤ d j) (hf : Feasible s d x) :
    ExactFeasible s d (scaleCols d x) :=
  ⟨scaleCols_nonneg hd hf.1,
   fun i => le_trans (Finset.sum_le_sum fun j _ => scaleCols_le hd hf i j) (hf.2.1 i),
   scaleCols_colSum hd hf⟩

lemma scaleCols_totalCost_le {m n : ℕ} {c : Fin m → Fin n → ℚ} {s : Fin m → ℚ}
    {d : Fin n → ℚ} {x : Fin m → Fin n → ℚ}
    (hc : ∀ i j, 0 ≤ c i j) (hd : ∀ j, 0 ≤ d j) (hf : Feasible s d x) :
    totalCost c (scaleCols d x) ≤ totalCost c x :=
  Finset.sum_le_sum fun i _ => Finset.sum_le_sum fun j _ =>
    mul_le_mul_of_nonneg_left (scaleCols_le hd hf i j) (hc i j)

/-- Counterexample to claim C2 as stated: on the instance
`cost [[-1]], supply [8], demand [3]` (total supply `8 > 3` total demand)
the solver succeeds, yet its objective value (`-8`: all `8` units are
shipped at negative cost) differs from the minimum cost of shipping
exactly the demanded quantities (`-3`). -/
theorem C2_counterexample :
    ((∑ j : Fin 1, (3 : ℚ)) < ∑ i : Fin 1, (8 : ℚ)) ∧
    (∃ x, IsOptimal (fun _ _ => (-1 : ℚ)) (fun _ : Fin 1 => 8) (fun _ : Fin 1 => 3) x) ∧
    (∃ z, ExactOptimal (fun _ _ => (-1 : ℚ)) (fun _ : Fin 1 => 8) (fun _ : Fin 1 => 3) z) ∧
    (∀ x z, IsOptimal (fun _ _ => (-1 : ℚ)) (fun _ : Fin 1 => 8) (fun _ : Fin 1 => 3) x →
      ExactOptimal (fun _ _ => (-1 : ℚ)) (fun _ : Fin 1 => 8) (fun _ : Fin 1 => 3) z →
      totalCost (fun _ _ => (-1 : ℚ)) x ≠ totalCost (fun _ _ => (-1 : ℚ)) z) := by
  refine ⟨by norm_num [Fin.sum_univ_one],
    ⟨_, optimal_one_nonpos (by norm_num) (by norm_num) (by norm_num)⟩,
    ⟨_, exactOptimal_one (by norm_num) (by norm_num)⟩, ?_⟩
  intro x z hx hz
  obtain ⟨h0, hsx, hdx⟩ := feasible_one_elim hx.1
  have hx8 : x 0 0 = 8 := by
    have hle := hx.2 (fun _ _ => (8 : ℚ)) (feasible_one (by norm_num) le_rfl (by norm_num))
    rw [totalCost_one, totalCost_one] at hle
    have : (8 : ℚ) ≤ x 0 0 := by linarith
    exact le_antisymm hsx this
  have hz3 : z 0 0 = 3 := by
    have := hz.1.2.2 0
    simpa [colSum, Fin.sum_univ_one] using this
  rw [totalCost_one, totalCost_one, hx8, hz3]
  norm_num

/-- Claim C2, amended: restricted to instances whose costs are all
nonnegative.  Then a successful solve on an instance whose total supply
strictly exceeds total demand returns exactly the minimum cost of
shipping the demanded quantities: no cost is attributed to the surplus
supply. -/
theorem C2_amended {m n : ℕ} (c : Fin m → Fin n → ℚ) (s : Fin m → ℚ)
    (d : Fin n → ℚ) (x z : Fin m → Fin n → ℚ)
    (hc : ∀ i j, 0 ≤ c i j) (hsd : (∑ j, d j) < ∑ i, s i)
    (hx : IsOptimal c s d x) (hz : ExactOptimal c s d z) :
    totalCost c x = totalCost c z := by
  obtain ⟨hxf, hxopt⟩ := hx
  obtain ⟨hzf, hzopt⟩ := hz
  have hd : ∀ j, 0 ≤ d j := fun j =>
    (hzf.2.2 j) ▸ colSum_nonneg hzf.1 j
  have h1 : totalCost c x ≤ totalCost c z := hxopt z (exactFeasible_feasible hzf)
  have h2 : totalCost c (scaleCols d x) ≤ totalCost c x :=
    scaleCols_totalCost_le hc hd hxf
  have h3 : totalCost c z ≤ totalCost c (scaleCols d x) :=
    hzopt _ (scaleCols_exactFeasible hd hxf)
  linarith

/-- Witness for the amended C2 at the concrete instance
`cost [[2]], supply [10], demand [5]`. -/
theorem C2_amended_witness :
    ((∀ i j : Fin 1, (0 : ℚ) ≤ (fun _ _ => (2 : ℚ) : Fin 1 → Fin 1 → ℚ) i j) ∧
     ((∑ j : Fin 1, (5 : ℚ)) < ∑ i : Fin 1, (10 : ℚ))) ∧
    totalCost (fun _ _ => (2 : ℚ) : Fin 1 → Fin 1 → ℚ) (fun _ _ => 5) =
      totalCost (fun _ _ => (2 : ℚ) : Fin 1 → Fin 1 → ℚ) (fun _ _ => 5) :=
  ⟨⟨fun _ _ => by norm_num, by norm_num [Fin.sum_univ_one]⟩,
   C2_amended (fun _ _ => (2 : ℚ)) (fun _ : Fin 1 => 10) (fun _ : Fin 1 => 5) _ _
     (fun _ _ => by norm_num) (by norm_num [Fin.sum_univ_one])
     (optimal_one_nonneg (by norm_num) (by norm_num) (by norm_num))
     (exactOptimal_one (by norm_num) (by norm_num))⟩

/-- Claim C3: every allocation entry the solver can return is
nonnegative — the variables carry the default lower bound `0` of
`addVar`, so every feasible (hence every optimal) point is nonnegative. -/
theorem C3_nonneg_allocation {m n : ℕ} (c : Fin m → Fin n → ℚ)
    (s : Fin m → ℚ) (d : Fin n → ℚ) (x : Fin m → Fin n → ℚ)
    (hopt : IsOptimal c s d x) : ∀ i j, 0 ≤ x i j :=
  hopt.1.1

/-- Witness for C3 at the concrete instance
`cost [[2]], supply [7], demand [5]`, evaluated at entry `(0, 0)`. -/
theorem C3_witness :
    (0 : ℚ) ≤ (fun _ _ => (5 : ℚ) : Fin 1 → Fin 1 → ℚ) 0 0 :=
  C3_nonneg_allocation (fun _ _ => (2 : ℚ)) (fun _ : Fin 1 => 7) (fun _ : Fin 1 => 5) _
    (optimal_one_nonneg (by norm_num) (by norm_num) (by norm_num)) 0 0

/-- Claim C7: two solver runs on the same instance report the same
objective value — any two optimal points have equal total cost. -/
theorem C7_total_cost_deterministic {m n : ℕ} (c : Fin m → Fin n → ℚ)
    (s : Fin m → ℚ) (d : Fin n → ℚ) (x₁ x₂ : Fin m → Fin n → ℚ)
    (h₁ : IsOptimal c s d x₁) (h₂ : IsOptimal c s d x₂) :
    totalCost c x₁ = totalCost c x₂ :=
  le_antisymm (h₁.2 x₂ h₂.1) (h₂.2 x₁ h₁.1)

/-- Witness for C7 at the concrete instance
`cost [[3]], supply [4], demand [4]`. -/
theorem C7_witness :
    totalCost (fun _ _ => (3 : ℚ) : Fin 1 → Fin 1 → ℚ) (fun _ _ => 4) =
      totalCost (fun _ _ => (3 : ℚ) : Fin 1 → Fin 1 → ℚ) (fun _ _ => 4) :=
  C7_total_cost_deterministic (fun _ _ => (3 : ℚ)) (fun _ : Fin 1 => 4)
    (fun _ : Fin 1 => 4) _ _
    (optimal_one_nonneg (by norm_num) (by norm_num) le_rfl)
    (optimal_one_nonneg (by norm_num) (by norm_num) le_rfl)

/-- Claim C10: because columns are only constrained from below, there is
an input with a negative cost entry — `cost [[-1]], supply [10],
demand [5]` — on which the solver succeeds and every allocation it can
return ships strictly more than the demand into the column. -/
theorem C10_negative_cost_overshipping :
    ((-1 : ℚ) < 0) ∧
    (∃ x, IsOptimal (fun _ _ => (-1 : ℚ)) (fun _ : Fin 1 => 10) (fun _ : Fin 1 => 5) x) ∧
    (∀ x, IsOptimal (fun _ _ => (-1 : ℚ)) (fun _ : Fin 1 => 10) (fun _ : Fin 1 => 5) x →
      (5 : ℚ) < colSum x 0) := by
  refine ⟨by norm_num,
    ⟨_, optimal_one_nonpos (by norm_num) (by norm_num) (by norm_num)⟩, ?_⟩
  intro x hx
  obtain ⟨h0, hsx, hdx⟩ := feasible_one_elim hx.1
  have hle := hx.2 (fun _ _ => (10 : ℚ)) (feasible_one (by norm_num) le_rfl (by norm_num))
  rw [totalCost_one, totalCost_one] at hle
  have h10 : (10 : ℚ) ≤ x 0 0 := by linarith
  have hc : colSum x 0 = x 0 0 := by
    simp [colSum, Fin.sum_univ_one]
  rw [hc]
  linarith

/- The GUI shell around the LP: `solve_transport` reads the three input
tables, builds the LP above and, on status OPTIMAL, writes the
allocation and the objective value into the result widgets; otherwise it
shows a message box (either the warning for a non-optimal status or the
generic handler for any exception) and leaves the result widgets as they
were. -/

/-- The mutable widget state of `TransportApp` that `solve_transport`
touches: the three input tables, the result label (`none` is its initial
text, `some tc` the text set on success) and the result table. -/
structure GuiState where
  nSources : ℕ
  nDest : ℕ
  costT : List (List (Option ℚ))
  offreT : List (List (Option ℚ))
  demandeT : List (List (Option ℚ))
  resultLabel : Option ℚ
  resultTable : List (List ℚ)

/-- What one click of "Résoudre" reports: on status OPTIMAL the
allocation and objective value, otherwise a message box; the code has a
single untyped message for every failure. -/
inductive Outcome where
  | success : List (List ℚ) → ℚ → Outcome
  | failure : Outcome

/-- The allocation matrix written into the result table. -/
def allocList {m n : ℕ} (x : Fin m → Fin n → ℚ) : List (List ℚ) :=
  (List.finRange m).map fun i => (List.finRange n).map fun j => x i j

/-- The cost matrix `solve_transport` builds: `_read_table(cost_table,
n_sources, n_dest)` with the dimensions taken from the cost table. -/
def lpCost (st : GuiState) : Fin st.nSources → Fin st.nDest → ℚ :=
  fun i j => matOf (read_table st.costT st.nSources st.nDest) i.val j.val

/-- The supply vector: `[row[0] for row in _read_table(offre_table,
n_sources, 1)]`. -/
def lpSupply (st : GuiState) : Fin st.nSources → ℚ :=
  fun i => vecOf ((read_table st.offreT st.nSources 1).map fun r => r.getD 0 0) i.val

/-- The demand vector: `_read_table(demande_table, 1, n_dest)[0]`. -/
def lpDemand (st : GuiState) : Fin st.nDest → ℚ :=
  fun j => vecOf ((read_table st.demandeT 1 st.nDest).getD 0 []) j.val

/-- The contract of `m.optimize()` for this LP: status OPTIMAL together
with an optimal point when one exists, otherwise the message-box branch. -/
def LPOutcome {m n : ℕ} (c : Fin m → Fin n → ℚ) (s : Fin m → ℚ)
    (d : Fin n → ℚ) (o : Outcome) : Prop :=
  (∃ x, IsOptimal c s d x ∧ o = Outcome.success (allocList x) (totalCost c x)) ∨
  ((¬ ∃ x, IsOptimal c s d x) ∧ o = Outcome.failure)

/-- The observable behaviour of one `solve_transport` invocation on the
current widget state. -/
def solve_transport (st : GuiState) (o : Outcome) : Prop :=
  LPOutcome (lpCost st) (lpSupply st) (lpDemand st) o

/-- How `solve_transport` updates the widget state: on success it fills
the result label and the result table; on failure it only shows a
message box, leaving the widgets unchanged. -/
def applyOutcome (st : GuiState) (o : Outcome) : GuiState :=
  match o with
  | Outcome.success a tc => { st with resultLabel := some tc, resultTable := a }
  | Outcome.failure => st

/-- The input read by `solve_transport` on the state of claim C4: a
negative cost entry, `cost [[-2]], supply [3], demand [1]`. -/
def st4 : GuiState :=
  ⟨1, 1, [[some (-2)]], [[some 3]], [[some 1]], none, []⟩

/-- The allocation the solver reports on `st4`: all `3` units shipped at
the negative cost. -/
def x4 : Fin 1 → Fin 1 → ℚ := fun _ _ => 3

/-- Claim C4 fails on the code (the claim itself is the intended
behaviour): there is no negativity validation and no
`NegativeValueError` anywhere — on the negative-cost input `st4` the
code builds the LP and solves it, reporting an optimal allocation. -/
theorem C4_negative_input_is_solved :
    lpCost st4 (0 : Fin 1) (0 : Fin 1) < 0 ∧
    ∃ a tc, solve_transport st4 (Outcome.success a tc) := by
  have hc : lpCost st4 = fun _ _ => (-2 : ℚ) := by
    funext i j
    fin_cases i <;> fin_cases j <;> rfl
  have hs : lpSupply st4 = fun _ => (3 : ℚ) := by
    funext i
    fin_cases i <;> rfl
  have hd : lpDemand st4 = fun _ => (1 : ℚ) := by
    funext j
    fin_cases j <;> rfl
  constructor
  · rw [hc]
    norm_num
  · have hsolve : solve_transport st4
        (Outcome.success (allocList x4) (totalCost (lpCost st4) x4)) := by
      unfold solve_transport LPOutcome
      rw [hc, hs, hd]
      exact Or.inl ⟨x4, optimal_one_nonpos (by norm_num) (by norm_num) (by norm_num), rfl⟩
    exact ⟨_, _, hsolve⟩

/-- The input read by `solve_transport` on the state of claim C5: a
3 × 1 cost table but a supply table with only two rows. -/
def st5 : GuiState :=
  ⟨3, 1, [[some 1], [some 1], [some 1]], [[some 5], [some 5]], [[some 8]], none, []⟩

/-- The allocation the solver reports on `st5`: `5` units from the first
source, `3` from the second, none from the zero-supply third. -/
def x5 : Fin 3 → Fin 1 → ℚ :=
  fun i _ => if i.val = 0 then 5 else if i.val = 1 then 3 else 0

/-- Claim C5 fails on the code (the claim itself is the intended
behaviour): there is no `ShapeError` anywhere — `_read_table` reads the
missing third supply cell as `0`, so the mismatched input `st5` is read
as supplies `[5, 5, 0]` and the solver is invoked, reporting an optimal
allocation. -/
theorem C5_shape_mismatch_zero_filled_and_solved :
    ((read_table st5.offreT st5.nSources 1).map fun r => r.getD 0 0) = [5, 5, 0] ∧
    ∃ a tc, solve_transport st5 (Outcome.success a tc) := by
  constructor
  · rfl
  · have hc : lpCost st5 = fun _ _ => (1 : ℚ) := by
      funext i j
      fin_cases i <;> fin_cases j <;> rfl
    have hs : lpSupply st5 =
        fun i => if i.val = 0 then (5 : ℚ) else if i.val = 1 then 5 else 0 := by
      funext i
      fin_cases i <;> rfl
    have hd : lpDemand st5 = fun _ => (8 : ℚ) := by
      funext j
      fin_cases j <;> rfl
    have hLP : LPOutcome (fun _ _ => (1 : ℚ) : Fin 3 → Fin 1 → ℚ)
        (fun i => if i.val = 0 then (5 : ℚ) else if i.val = 1 then 5 else 0)
        (fun _ => (8 : ℚ))
        (Outcome.success (allocList x5) (totalCost (fun _ _ => (1 : ℚ)) x5)) := by
      refine Or.inl ⟨x5, ⟨⟨?_, ?_, ?_⟩, ?_⟩, rfl⟩
      · intro i j
        fin_cases i <;> norm_num [x5]
      · intro i
        fin_cases i <;> norm_num [x5, rowSum, Fin.sum_univ_one]
      · intro j
        fin_cases j
        norm_num [x5, colSum, Fin.sum_univ_three]
      · intro y hy
        have h8 : (8 : ℚ) ≤ colSum y 0 := hy.2.2 0
        have hcost : totalCost (fun _ _ => (1 : ℚ)) y = colSum y 0 := by
          simp [totalCost, colSum, Fin.sum_univ_one]
        have hxcost : totalCost (fun _ _ => (1 : ℚ)) x5 = 8 := by
          norm_num [totalCost, x5, Fin.sum_univ_three, Fin.sum_univ_one]
        rw [hxcost, hcost]
        exact h8
    have hsolve : solve_transport st5
        (Outcome.success (allocList x5) (totalCost (fun _ _ => (1 : ℚ) : Fin 3 → Fin 1 → ℚ) x5)) := by
      unfold solve_transport
      rw [hc, hs, hd]
      exact hLP
    exact ⟨_, _, hsolve⟩

/-- The input read by `solve_transport` on the state of claim C6: the
infeasible instance `cost [[1]], supply [1], demand [5]`. -/
def st6 : GuiState :=
  ⟨1, 1, [[some 1]], [[some 1]], [[some 5]], none, []⟩

/-- Claim C6 fails on the code (the claim itself is the intended
behaviour): the code has no `SolveError` taxonomy — on the infeasible
input `st6` (demand exceeds the only supply) the LP has no feasible
point, so the run ends in the single undifferentiated message-box
outcome instead of a typed `Infeasible` result. -/
theorem C6_failure_is_undifferentiated :
    solve_transport st6 Outcome.failure ∧
    ¬ ∃ x : Fin 1 → Fin 1 → ℚ, Feasible (lpSupply st6) (lpDemand st6) x := by
  have hs : lpSupply st6 = fun _ => (1 : ℚ) := by
    funext i
    fin_cases i <;> rfl
  have hd : lpDemand st6 = fun _ => (5 : ℚ) := by
    funext j
    fin_cases j <;> rfl
  have hinf : ¬ ∃ x : Fin 1 → Fin 1 → ℚ, Feasible (lpSupply st6) (lpDemand st6) x := by
    rintro ⟨x, hf⟩
    rw [hs, hd] at hf
    obtain ⟨h0, hsx, hdx⟩ := feasible_one_elim hf
    linarith
  refine ⟨?_, hinf⟩
  unfold solve_transport LPOutcome
  refine Or.inr ⟨?_, rfl⟩
  rintro ⟨x, hopt⟩
  exact hinf ⟨x, hopt.1⟩

/-- Claim C9: a cell that is missing (or whose text is empty) is read by
`_read_table` as the numeric value `0`, so the solver receives `0` for
every unfilled cost, supply or demand cell. -/
theorem C9_missing_cell_read_as_zero (t : List (List (Option ℚ)))
    (rows cols i j : ℕ) (hi : i < rows) (hj : j < cols)
    (h : cellItem t i j = none) :
    ∃ row, (read_table t rows cols).get? i = some row ∧ row.get? j = some (0 : ℚ) := by
  refine ⟨(List.range cols).map fun j => readCell t i j, ?_, ?_⟩
  · unfold read_table
    rw [List.get?_map, List.get?_range hi]
    rfl
  · rw [List.get?_map, List.get?_range hj]
    simp [readCell, h]

/-- Witness for C9 at the one-cell table whose single cell is missing. -/
theorem C9_witness :
    (cellItem ([[none]] : List (List (Option ℚ))) 0 0 = none ∧ (0 : ℕ) < 1) ∧
    ∃ row, (read_table ([[none]] : List (List (Option ℚ))) 1 1).get? 0 = some row ∧
      row.get? 0 = some (0 : ℚ) :=
  ⟨⟨rfl, by norm_num⟩,
   C9_missing_cell_read_as_zero [[none]] 1 1 0 0 (by norm_num) (by norm_num) rfl⟩

/-- The input of the C8 counterexample: the solvable balanced instance
`cost [[2]], supply [6], demand [6]`, with the result label still at its
initial text. -/
def st8 : GuiState :=
  ⟨1, 1, [[some 2]], [[some 6]], [[some 6]], none, []⟩

/-- Counterexample to claim C8 as stated: a `solve_transport` invocation
does write state that survives across invocations — on `st8` it succeeds
and overwrites the result label, which persists in the widget state
after the call returns. -/
theorem C8_counterexample :
    ∃ o, solve_transport st8 o ∧ (applyOutcome st8 o).resultLabel ≠ st8.resultLabel := by
  have hc : lpCost st8 = fun _ _ => (2 : ℚ) := by
    funext i j
    fin_cases i <;> fin_cases j <;> rfl
  have hs : lpSupply st8 = fun _ => (6 : ℚ) := by
    funext i
    fin_cases i <;> rfl
  have hd : lpDemand st8 = fun _ => (6 : ℚ) := by
    funext j
    fin_cases j <;> rfl
  have hLP : LPOutcome (fun _ _ => (2 : ℚ) : Fin 1 → Fin 1 → ℚ)
      (fun _ => (6 : ℚ)) (fun _ => (6 : ℚ))
      (Outcome.success (allocList (fun _ _ => (6 : ℚ) : Fin 1 → Fin 1 → ℚ))
        (totalCost (fun _ _ => (2 : ℚ)) (fun _ _ => (6 : ℚ) : Fin 1 → Fin 1 → ℚ))) :=
    Or.inl ⟨_, optimal_one_nonneg (by norm_num) (by norm_num) le_rfl, rfl⟩
  refine ⟨Outcome.success (allocList (fun _ _ => (6 : ℚ) : Fin 1 → Fin 1 → ℚ))
      (totalCost (fun _ _ => (2 : ℚ)) (fun _ _ => (6 : ℚ) : Fin 1 → Fin 1 → ℚ)), ?_, ?_⟩
  · unfold solve_transport
    rw [hc, hs, hd]
    exact hLP
  · simp [applyOutcome, st8]

/-- Claim C8, amended: the solve outcome is a function of the input
tables alone.  `solve_transport` reads only the three input tables (and
their dimensions) and, besides its reported outcome, writes only the
result display; two states agreeing on the inputs admit exactly the same
outcomes, whatever earlier calls left in the result widgets. -/
theorem C8_outcome_depends_only_on_inputs (st₁ st₂ : GuiState) (o : Outcome)
    (h1 : st₁.nSources = st₂.nSources) (h2 : st₁.nDest = st₂.nDest)
    (h3 : st₁.costT = st₂.costT) (h4 : st₁.offreT = st₂.offreT)
    (h5 : st₁.demandeT = st₂.demandeT)
    (h : solve_transport st₁ o) : solve_transport st₂ o := by
  obtain ⟨n₁, m₁, c₁, of₁, de₁, rl₁, rt₁⟩ := st₁
  obtain ⟨n₂, m₂, c₂, of₂, de₂, rl₂, rt₂⟩ := st₂
  simp only at h1 h2 h3 h4 h5
  subst h1
  subst h2
  subst h3
  subst h4
  subst h5
  exact h

/-- The states of the C8 witness: identical infeasible inputs
(`cost [[4]], supply [2], demand [9]`), different leftover result
widgets from earlier calls. -/
def st8a : GuiState :=
  ⟨1, 1, [[some 4]], [[some 2]], [[some 9]], none, []⟩

/-- Same inputs as `st8a`, result widgets already holding data. -/
def st8b : GuiState :=
  ⟨1, 1, [[some 4]], [[some 2]], [[some 9]], some 0, [[0]]⟩

lemma st8a_fails : solve_transport st8a Outcome.failure := by
  have hs : lpSupply st8a = fun _ => (2 : ℚ) := by
    funext i
    fin_cases i <;> rfl
  have hd : lpDemand st8a = fun _ => (9 : ℚ) := by
    funext j
    fin_cases j <;> rfl
  unfold solve_transport LPOutcome
  refine Or.inr ⟨?_, rfl⟩
  rintro ⟨x, hopt⟩
  have hf := hopt.1
  rw [hs, hd] at hf
  obtain ⟨h0, hsx, hdx⟩ := feasible_one_elim hf
  linarith

/-- Witness for the amended C8: the outcome on `st8a` is also an outcome
on `st8b`, which differs from `st8a` only in the result widgets. -/
theorem C8_witness : solve_transport st8b Outcome.failure :=
  C8_outcome_depends_only_on_inputs st8a st8b Outcome.failure
    rfl rfl rfl rfl rfl st8a_fails

end TransportRO
